import Mathlib

/-! Shallow embedding of the AWS-ChatBot request-handling core
(src/chatbot/app.py) and proofs of its specification claims.

Time stamps are modelled as rationals, Python dicts as association
lists, and the external Bedrock model call as an explicit
success-or-error parameter of the handler. -/

namespace AWSChatBot

/-- A chat message as stored by the conversation manager
(dataclass ChatMessage in app.py). -/
structure ChatMessage where
  role : String
  content : String
  timestamp : ℚ
  token_count : Option ℕ
deriving DecidableEq

/-- Python dict lookup, modelled on an association list. -/
def mapGet {α : Type} : List (String × α) → String → Option α
  | [], _ => none
  | (k, v) :: t, k' => if k = k' then some v else mapGet t k'

/-- Python dict assignment, modelled on an association list. -/
def mapSet {α : Type} : List (String × α) → String → α → List (String × α)
  | [], k, v => [(k, v)]
  | (k0, v0) :: t, k, v => if k0 = k then (k, v) :: t else (k0, v0) :: mapSet t k v

abbrev ConvStore := List (String × List ChatMessage)

/-- The history list stored for a conversation id; a missing key reads
as the empty history. -/
def histOf (s : ConvStore) (cid : String) : List ChatMessage :=
  (mapGet s cid).getD []

/-- ConversationManager.add_message: append the message, then pop the
oldest entry when the history exceeds max_history. -/
def add_message (max_history : ℕ) (s : ConvStore) (cid : String)
    (msg : ChatMessage) : ConvStore :=
  let history := histOf s cid ++ [msg]
  mapSet s cid (if max_history < history.length then history.tail else history)

/-- ConversationManager.get_history: role and content projection of the
stored history, empty for an unknown conversation id. -/
def get_history (s : ConvStore) (cid : String) : List (String × String) :=
  (histOf s cid).map (fun m => (m.role, m.content))

/-- Run a sequence of add_message calls. -/
def convRun (max_history : ℕ) (s : ConvStore) :
    List (String × ChatMessage) → ConvStore
  | [] => s
  | op :: ops => convRun max_history (add_message max_history s op.1 op.2) ops

/-- TokenCounter.estimate_tokens: about four characters per token,
rounded down, at least 1. -/
def estimate_tokens (text : String) : ℕ :=
  max 1 (text.length / 4)

abbrev RLMap := List (String × List ℚ)

/-- Drop the timestamps that fall outside the trailing window. -/
def pruneBucket (window_seconds now : ℚ) (b : List ℚ) : List ℚ :=
  b.filter (fun t => decide (now - t < window_seconds))

/-- One rate limiter check on a single bucket: prune, then accept and
record the call when the pruned bucket is under max_requests. -/
def rlStep (max_requests : ℕ) (window_seconds now : ℚ) (b : List ℚ) :
    Bool × List ℚ :=
  let b' := pruneBucket window_seconds now b
  if b'.length < max_requests then (true, b' ++ [now]) else (false, b')

/-- RateLimiter.is_allowed on the bucket map: the identity bucket is
created on demand, pruned, and written back. -/
def is_allowed (max_requests : ℕ) (window_seconds now : ℚ) (buckets : RLMap)
    (identifier : String) : Bool × RLMap :=
  let r := rlStep max_requests window_seconds now ((mapGet buckets identifier).getD [])
  (r.1, mapSet buckets identifier r.2)

/-- Run a sequence of is_allowed calls, returning the final map and the
per-call results. -/
def rlRunMap (max_requests : ℕ) (window_seconds : ℚ) (buckets : RLMap) :
    List (String × ℚ) → RLMap × List ((String × ℚ) × Bool)
  | [] => (buckets, [])
  | c :: cs =>
    let r := is_allowed max_requests window_seconds c.2 buckets c.1
    let rest := rlRunMap max_requests window_seconds r.2 cs
    (rest.1, (c, r.1) :: rest.2)

/-- Run of rlStep on a single bucket over a list of call times. -/
def rlRun1 (max_requests : ℕ) (window_seconds : ℚ) (b : List ℚ) :
    List ℚ → List ℚ × List (ℚ × Bool)
  | [] => (b, [])
  | t :: ts =>
    let r := rlStep max_requests window_seconds t b
    let rest := rlRun1 max_requests window_seconds r.2 ts
    (rest.1, (t, r.1) :: rest.2)

/-- The bucket stored for an identity, empty when absent. -/
def bucketOf (buckets : RLMap) (identifier : String) : List ℚ :=
  (mapGet buckets identifier).getD []

/-- The call times of one identity within a mixed call sequence. -/
def callsFor (identifier : String) (calls : List (String × ℚ)) : List ℚ :=
  (calls.filter (fun c => decide (c.1 = identifier))).map Prod.snd

/-- The times of the admitted calls in a single-bucket trace. -/
def allowedTimes (tr : List (ℚ × Bool)) : List ℚ :=
  (tr.filter (fun r => r.2)).map Prod.fst

/-- Result of validate_input. -/
inductive ValidationResult where
  | invalid (error : String)
  | valid (estimated_tokens : ℕ) (length : ℕ)
deriving DecidableEq

/-- The fixed suspicious phrases validate_input scans for. -/
def dangerous_patterns : List String :=
  ["ignore previous instructions", "system:", "assistant:"]

/-- Whether the needle is an initial run of the haystack. -/
def charsStartWith : List Char → List Char → Bool
  | [], _ => true
  | _ :: _, [] => false
  | a :: as, b :: bs => a == b && charsStartWith as bs

/-- Whether the needle occurs contiguously in the haystack, as the
Python substring operator does. -/
def charsContain (needle : List Char) : List Char → Bool
  | [] => charsStartWith needle []
  | b :: bs => charsStartWith needle (b :: bs) || charsContain needle bs

/-- Python test pattern in message.lower(). -/
def containsPattern (message pat : String) : Bool :=
  charsContain pat.data (message.data.map Char.toLower)

/-- The patterns validate_input logs as potential prompt injection; the
scan only produces this diagnostic signal. -/
def injection_warnings (message : String) : List String :=
  dangerous_patterns.filter (fun p => containsPattern message p)

/-- validate_input from app.py: empty and oversize checks, then a valid
result with the token estimate. The pattern scan only logs. -/
def validate_input (message : String) : ValidationResult :=
  if message = "" then .invalid "Message cannot be empty"
  else if 2000 < message.length then .invalid "Message too long (max 2000 characters)"
  else .valid (estimate_tokens message) message.length

/-- HTTP-style response of the handler. -/
structure Response where
  statusCode : ℕ
  errorBody : Option String
  replyBody : Option String
deriving DecidableEq

/-- Process-wide mutable state: conversation cache and limiter buckets. -/
structure AppState where
  conv : ConvStore
  buckets : RLMap
deriving DecidableEq

/-- lambda_handler after json parsing, with the Bedrock call abstracted
as modelResult (generated reply, or the text of a ClientError). The
third component records the message list sent to the model, none when
no model call is made. -/
def lambda_handler (max_history max_requests : ℕ) (window_seconds now : ℚ)
    (cid : String) (userInput : String) (modelResult : Except String String)
    (st : AppState) : Response × AppState × Option (List (String × String)) :=
  let rl := is_allowed max_requests window_seconds now st.buckets cid
  if rl.1 = false then
    (⟨429, some "Rate limit exceeded. Please wait before sending another message.", none⟩,
     ⟨st.conv, rl.2⟩, none)
  else
    match validate_input userInput with
    | .invalid err => (⟨400, some err, none⟩, ⟨st.conv, rl.2⟩, none)
    | .valid estTok _ =>
      let history := get_history st.conv cid
      let messages := history ++ [("user", userInput)]
      let conv1 := add_message max_history st.conv cid ⟨"user", userInput, now, some estTok⟩
      match modelResult with
      | .error _ =>
        (⟨500, some "Service temporarily unavailable", none⟩, ⟨conv1, rl.2⟩, some messages)
      | .ok reply =>
        let conv2 := add_message max_history conv1 cid
          ⟨"assistant", reply, now, some (estimate_tokens reply)⟩
        (⟨200, none, some reply⟩, ⟨conv2, rl.2⟩, some messages)

/-- Request metadata consumed by generate_conversation_id; a missing
field models a missing key in the Lambda event. -/
structure RequestEvent where
  sourceIp : Option String
  userAgent : Option String
deriving DecidableEq

/-- generate_conversation_id, with the md5 hex digest treated as an
external deterministic function of the hashed string. -/
def generate_conversation_id (md5hex : String → String) (event : RequestEvent) : String :=
  let source_ip := event.sourceIp.getD "unknown"
  let user_agent := event.userAgent.getD "unknown"
  String.mk ((md5hex (source_ip ++ ":" ++ user_agent)).data.take 16)

/-! Association map lemmas. -/

theorem mapGet_mapSet_self {α : Type} (mp : List (String × α)) (k : String) (v : α) :
    mapGet (mapSet mp k v) k = some v := by
  induction mp with
  | nil => simp [mapGet, mapSet]
  | cons hd t ih =>
    obtain ⟨k0, v0⟩ := hd
    by_cases hk : k0 = k
    · simp [mapSet, hk, mapGet]
    · simp [mapSet, hk, mapGet, ih]

theorem mapGet_mapSet_other {α : Type} (mp : List (String × α)) (k k' : String) (v : α)
    (h : k ≠ k') : mapGet (mapSet mp k v) k' = mapGet mp k' := by
  induction mp with
  | nil => simp [mapGet, mapSet, h]
  | cons hd t ih =>
    obtain ⟨k0, v0⟩ := hd
    by_cases hk : k0 = k
    · subst hk; simp [mapSet, mapGet, h]
    · simp [mapSet, hk, mapGet, ih]

/-! Conversation store lemmas. -/

theorem histOf_add_self (max_history : ℕ) (s : ConvStore) (cid : String) (m : ChatMessage) :
    histOf (add_message max_history s cid m) cid =
      if max_history < (histOf s cid ++ [m]).length
      then (histOf s cid ++ [m]).tail else histOf s cid ++ [m] := by
  unfold add_message histOf
  rw [mapGet_mapSet_self]
  rfl

theorem histOf_add_other (max_history : ℕ) (s : ConvStore) (cid cid' : String)
    (m : ChatMessage) (h : cid ≠ cid') :
    histOf (add_message max_history s cid m) cid' = histOf s cid' := by
  unfold add_message histOf
  rw [mapGet_mapSet_other _ _ _ _ h]

theorem histOf_convRun_length_le (max_history : ℕ) (ops : List (String × ChatMessage)) :
    ∀ s : ConvStore, (∀ cid, (histOf s cid).length ≤ max_history) →
      ∀ cid, (histOf (convRun max_history s ops) cid).length ≤ max_history := by
  induction ops with
  | nil => intro s hs cid; exact hs cid
  | cons op ops ih =>
    intro s hs cid
    refine ih _ (fun cid' => ?_) cid
    by_cases h : op.1 = cid'
    · subst h
      rw [histOf_add_self]
      by_cases hov : max_history < (histOf s op.1 ++ [op.2]).length
      · rw [if_pos hov]
        have := hs op.1
        simp only [List.length_tail, List.length_append, List.length_singleton]
        omega
      · rw [if_neg hov]
        simp only [List.length_append, List.length_singleton] at hov ⊢
        omega
    · rw [histOf_add_other _ _ _ _ _ h]
      exact hs cid'

theorem histOf_empty (cid : String) : histOf ([] : ConvStore) cid = [] := rfl

/-- A message just appended by add_message is present in the resulting
history, as long as the bound is positive. -/
theorem mem_histOf_add (max_history : ℕ) (hpos : 0 < max_history) (s : ConvStore)
    (cid : String) (m : ChatMessage) :
    m ∈ histOf (add_message max_history s cid m) cid := by
  rw [histOf_add_self]
  by_cases hov : max_history < (histOf s cid ++ [m]).length
  · rw [if_pos hov]
    cases hh : histOf s cid with
    | nil =>
      rw [hh] at hov
      simp at hov
      omega
    | cons a t =>
      simp
  · rw [if_neg hov]
    simp

/-- Claim C1: starting from the empty store, no session history ever
exceeds max_history messages, and when a further append happens at the
bound the eviction drops exactly the single oldest remaining message
(the head of the history) and keeps all newer ones. -/
theorem claim_C1 (max_history : ℕ) (ops : List (String × ChatMessage)) (cid : String) :
    (histOf (convRun max_history [] ops) cid).length ≤ max_history ∧
    (∀ m : ChatMessage,
      ((histOf (convRun max_history [] ops) cid).length < max_history →
        histOf (add_message max_history (convRun max_history [] ops) cid m) cid =
          histOf (convRun max_history [] ops) cid ++ [m]) ∧
      (0 < max_history →
        (histOf (convRun max_history [] ops) cid).length = max_history →
        histOf (add_message max_history (convRun max_history [] ops) cid m) cid =
          (histOf (convRun max_history [] ops) cid).drop 1 ++ [m])) := by
  have hlen : ∀ cid', (histOf (convRun max_history [] ops) cid').length ≤ max_history :=
    histOf_convRun_length_le max_history ops []
      (fun cid' => by rw [histOf_empty]; exact Nat.zero_le _)
  refine ⟨hlen cid, fun m => ⟨?_, ?_⟩⟩
  · intro hlt
    rw [histOf_add_self]
    rw [if_neg (by simp only [List.length_append, List.length_singleton]; omega)]
  · intro hpos heq
    rw [histOf_add_self]
    rw [if_pos (by simp only [List.length_append, List.length_singleton]; omega)]
    cases hh : histOf (convRun max_history [] ops) cid with
    | nil => rw [hh] at heq; simp at heq; omega
    | cons a t => simp

/-- Concrete instance for claim C1: with max_history 1 and one stored
message, a further append evicts exactly the stored head. -/
theorem claim_C1_witness :
    0 < 1 ∧
    (histOf (convRun 1 [] [("s", ⟨"user", "a", 0, none⟩)]) "s").length = 1 ∧
    histOf (add_message 1 (convRun 1 [] [("s", ⟨"user", "a", 0, none⟩)]) "s"
        ⟨"user", "b", 1, none⟩) "s" =
      (histOf (convRun 1 [] [("s", ⟨"user", "a", 0, none⟩)]) "s").drop 1 ++
        [⟨"user", "b", 1, none⟩] :=
  ⟨Nat.one_pos, by decide,
    ((claim_C1 1 [("s", ⟨"user", "a", 0, none⟩)] "s").2 ⟨"user", "b", 1, none⟩).2
      Nat.one_pos (by decide)⟩

/-- Claim C6: estimate_tokens is the four-characters-per-token estimate
floored at one; it is 1 on the empty string and four characters, 500 on
2000 characters, and monotone in the input length. -/
theorem claim_C6 :
    (∀ s : String, estimate_tokens s = max 1 (s.length / 4)) ∧
    estimate_tokens "" = 1 ∧
    (∀ s : String, 1 ≤ estimate_tokens s) ∧
    (∀ s : String, s.length = 4 → estimate_tokens s = 1) ∧
    (∀ s : String, s.length = 2000 → estimate_tokens s = 500) ∧
    (∀ s t : String, s.length ≤ t.length → estimate_tokens s ≤ estimate_tokens t) := by
  refine ⟨fun s => rfl, by decide, fun s => le_max_left _ _, ?_, ?_, ?_⟩
  · intro s h; simp [estimate_tokens, h]
  · intro s h; simp [estimate_tokens, h]
  · intro s t h
    unfold estimate_tokens
    exact max_le_max le_rfl (Nat.div_le_div_right h)

/-- Concrete instance for claim C6: a four character message costs one
token. -/
theorem claim_C6_witness : "abcd".length = 4 ∧ estimate_tokens "abcd" = 1 :=
  ⟨by decide, claim_C6.2.2.2.1 "abcd" (by decide)⟩

/-- Claim C5 counterexample: on the empty string validate_input reports
the error string "Message cannot be empty", not "message required" as
the claim states. -/
theorem claim_C5_counterexample :
    validate_input "" = .invalid "Message cannot be empty" ∧
    validate_input "" ≠ .invalid "message required" := by
  constructor
  · rfl
  · decide

/-- Claim C5 (amended to the error strings the code actually returns):
the empty string is rejected with "Message cannot be empty", any message
longer than 2000 characters is rejected with "Message too long (max 2000
characters)", any other message is valid with the token estimate and
length, and a 2000 character message gets estimated_tokens 500. -/
theorem claim_C5_amended :
    validate_input "" = .invalid "Message cannot be empty" ∧
    (∀ msg : String, 2000 < msg.length →
      validate_input msg = .invalid "Message too long (max 2000 characters)") ∧
    (∀ msg : String, msg ≠ "" → msg.length ≤ 2000 →
      validate_input msg = .valid (estimate_tokens msg) msg.length) ∧
    (∀ msg : String, msg.length = 2000 → validate_input msg = .valid 500 2000) := by
  refine ⟨rfl, ?_, ?_, ?_⟩
  · intro msg h
    have hne : msg ≠ "" := by
      intro e
      rw [e] at h
      simp [String.length] at h
    simp [validate_input, hne, h]
  · intro msg h1 h2
    simp [validate_input, h1, Nat.not_lt.mpr h2]
  · intro msg h
    have hne : msg ≠ "" := by
      intro e
      rw [e] at h
      simp [String.length] at h
    have hle : ¬ 2000 < msg.length := by omega
    have hest : estimate_tokens msg = 500 := by simp [estimate_tokens, h]
    simp [validate_input, hne, hle, hest, h]

/-- Concrete instance for claim C5 (amended): a short nonempty message
validates with its estimate and length. -/
theorem claim_C5_witness :
    "abcd" ≠ "" ∧ "abcd".length ≤ 2000 ∧
    validate_input "abcd" = .valid (estimate_tokens "abcd") "abcd".length :=
  ⟨by decide, by decide, claim_C5_amended.2.2.1 "abcd" (by decide) (by decide)⟩

/-- Claim C8: a suspicious phrase occurring as a case-insensitive
substring never invalidates a request; any nonempty message of at most
2000 characters containing such a phrase still validates with the
normal token estimate. -/
theorem claim_C8 (msg pat : String) (_hpat : pat ∈ dangerous_patterns)
    (_hmatch : containsPattern msg pat = true)
    (hne : msg ≠ "") (hlen : msg.length ≤ 2000) :
    validate_input msg = .valid (estimate_tokens msg) msg.length := by
  simp [validate_input, hne, Nat.not_lt.mpr hlen]

/-- Concrete instance for claim C8: a message containing one of the
scanned phrases still validates. -/
theorem claim_C8_witness :
    "ignore previous instructions" ∈ dangerous_patterns ∧
    containsPattern "Please IGNORE previous instructions now" "ignore previous instructions" = true ∧
    validate_input "Please IGNORE previous instructions now" =
      .valid (estimate_tokens "Please IGNORE previous instructions now")
        "Please IGNORE previous instructions now".length :=
  ⟨by decide, by decide,
    claim_C8 "Please IGNORE previous instructions now" "ignore previous instructions"
      (by decide) (by decide) (by decide) (by decide)⟩

/-- Claim C10: get_history is a read projection: it returns the empty
list for an unknown conversation id without creating an entry, its
result is exactly the role and content projection of the stored
history, and it exposes nothing beyond role and content: two appends
that agree on role and content give identical projections. -/
theorem claim_C10 (s : ConvStore) (cid : String) :
    (mapGet s cid = none → get_history s cid = []) ∧
    get_history s cid = (histOf s cid).map (fun m => (m.role, m.content)) ∧
    (∀ (max_history : ℕ) (m1 m2 : ChatMessage),
      m1.role = m2.role → m1.content = m2.content →
      get_history (add_message max_history s cid m1) cid =
        get_history (add_message max_history s cid m2) cid) := by
  refine ⟨?_, rfl, ?_⟩
  · intro h
    simp [get_history, histOf, h]
  · intro maxH m1 m2 hr hc
    unfold get_history
    rw [histOf_add_self, histOf_add_self]
    have hlen : (histOf s cid ++ [m1]).length = (histOf s cid ++ [m2]).length := by simp
    have hmap : (histOf s cid ++ [m1]).map (fun m => (m.role, m.content)) =
        (histOf s cid ++ [m2]).map (fun m => (m.role, m.content)) := by
      simp [hr, hc]
    by_cases hov : maxH < (histOf s cid ++ [m1]).length
    · rw [if_pos hov, if_pos (by omega)]
      rw [List.map_tail, List.map_tail, hmap]
    · rw [if_neg hov, if_neg (by omega)]
      exact hmap

/-- Concrete instance for claim C10: an unknown conversation id reads
as the empty history. -/
theorem claim_C10_witness :
    mapGet ([] : ConvStore) "absent" = none ∧ get_history ([] : ConvStore) "absent" = [] :=
  ⟨rfl, (claim_C10 [] "absent").1 rfl⟩

/-- Claim C9: session identity derivation is total and deterministic:
equal source address and user agent give equal identities, the identity
always has length 16 when the digest has at least 16 characters, and a
missing source address or user agent falls back to the placeholder
"unknown" instead of failing. -/
theorem claim_C9 (md5hex : String → String)
    (hlen : ∀ s : String, 16 ≤ (md5hex s).length) :
    (∀ e1 e2 : RequestEvent, e1.sourceIp = e2.sourceIp → e1.userAgent = e2.userAgent →
      generate_conversation_id md5hex e1 = generate_conversation_id md5hex e2) ∧
    (∀ e : RequestEvent, (generate_conversation_id md5hex e).length = 16) ∧
    (∀ ua : Option String, generate_conversation_id md5hex ⟨none, ua⟩ =
      generate_conversation_id md5hex ⟨some "unknown", ua⟩) ∧
    (∀ ip : Option String, generate_conversation_id md5hex ⟨ip, none⟩ =
      generate_conversation_id md5hex ⟨ip, some "unknown"⟩) := by
  refine ⟨?_, ?_, fun ua => rfl, fun ip => rfl⟩
  · intro e1 e2 h1 h2
    unfold generate_conversation_id
    rw [h1, h2]
  · intro e
    unfold generate_conversation_id
    show (String.mk _).length = 16
    have hmk : ∀ l : List Char, (String.mk l).length = l.length := fun l => rfl
    rw [hmk, List.length_take]
    exact min_eq_left (hlen _)

/-- Concrete instance for claim C9: with a 32 character digest the
derived identity of a metadata-free event has length 16. -/
theorem claim_C9_witness :
    (∀ s : String, 16 ≤ ((fun _ => "0123456789abcdef0123456789abcdef") s).length) ∧
    (generate_conversation_id (fun _ => "0123456789abcdef0123456789abcdef")
      ⟨none, none⟩).length = 16 := by
  have h : ∀ s : String, 16 ≤ ((fun _ => "0123456789abcdef0123456789abcdef") s).length := by
    intro s
    show (16 : ℕ) ≤ ("0123456789abcdef0123456789abcdef" : String).length
    decide
  exact ⟨h, (claim_C9 (fun _ => "0123456789abcdef0123456789abcdef") h).2.1 ⟨none, none⟩⟩

/-- Claim C4: when the request is admitted and valid, the handler
appends the user message to the conversation store and only then makes
the model call with the prior history plus the new user turn; if that
call raises a ClientError the handler answers 500 with the fixed
generic body "Service temporarily unavailable" (independent of the
exception text) and the appended user message stays in the history. -/
theorem claim_C4 (max_history max_requests : ℕ) (hpos : 0 < max_history)
    (window_seconds now : ℚ) (cid userInput e : String) (st : AppState)
    (hrl : (is_allowed max_requests window_seconds now st.buckets cid).1 = true)
    (tok len : ℕ) (hval : validate_input userInput = .valid tok len) :
    lambda_handler max_history max_requests window_seconds now cid userInput
        (.error e) st =
      (⟨500, some "Service temporarily unavailable", none⟩,
       ⟨add_message max_history st.conv cid ⟨"user", userInput, now, some tok⟩,
        (is_allowed max_requests window_seconds now st.buckets cid).2⟩,
       some (get_history st.conv cid ++ [("user", userInput)])) ∧
    (⟨"user", userInput, now, some tok⟩ : ChatMessage) ∈
      histOf (add_message max_history st.conv cid
        ⟨"user", userInput, now, some tok⟩) cid := by
  constructor
  · simp [lambda_handler, hrl, hval]
  · exact mem_histOf_add max_history hpos st.conv cid _

/-- Concrete instance for claim C4: a fresh admitted and valid request
whose model call fails gets the generic 500 body, and the user turn is
recorded. -/
theorem claim_C4_witness :
    0 < 10 ∧
    (is_allowed 10 60 0 (AppState.mk [] []).buckets "c").1 = true ∧
    validate_input "hello" = .valid 1 5 ∧
    (lambda_handler 10 10 60 0 "c" "hello" (.error "boom") ⟨[], []⟩ =
      (⟨500, some "Service temporarily unavailable", none⟩,
       ⟨add_message 10 ([] : ConvStore) "c" ⟨"user", "hello", 0, some 1⟩,
        (is_allowed 10 60 0 ([] : RLMap) "c").2⟩,
       some (get_history ([] : ConvStore) "c" ++ [("user", "hello")])) ∧
     (⟨"user", "hello", 0, some 1⟩ : ChatMessage) ∈
       histOf (add_message 10 ([] : ConvStore) "c" ⟨"user", "hello", 0, some 1⟩) "c") :=
  ⟨by decide, by decide, by decide,
    claim_C4 10 10 (by decide) 60 0 "c" "hello" "boom" ⟨[], []⟩ (by decide) 1 5 (by decide)⟩

/-- Claim C7: a rate limited request exits with a 429 response carrying
an error string, the conversation store is left untouched, and no model
call is made; the response and state are independent of the message
body, which is never validated or appended. -/
theorem claim_C7 (max_history max_requests : ℕ) (window_seconds now : ℚ)
    (cid userInput : String) (modelResult : Except String String) (st : AppState)
    (hrl : (is_allowed max_requests window_seconds now st.buckets cid).1 = false) :
    lambda_handler max_history max_requests window_seconds now cid userInput
        modelResult st =
      (⟨429, some "Rate limit exceeded. Please wait before sending another message.", none⟩,
       ⟨st.conv, (is_allowed max_requests window_seconds now st.buckets cid).2⟩,
       none) := by
  simp [lambda_handler, hrl]

/-- Concrete instance for claim C7: with max_requests 0 every request is
denied and the handler answers 429 leaving the conversation store
unchanged. -/
theorem claim_C7_witness :
    (is_allowed 0 60 0 (AppState.mk [("c", [⟨"user", "x", 0, none⟩])] []).buckets "c").1 = false ∧
    lambda_handler 10 0 60 0 "c" "hello" (.ok "reply")
        ⟨[("c", [⟨"user", "x", 0, none⟩])], []⟩ =
      (⟨429, some "Rate limit exceeded. Please wait before sending another message.", none⟩,
       ⟨[("c", [⟨"user", "x", 0, none⟩])],
        (is_allowed 0 60 0 ([] : RLMap) "c").2⟩,
       none) :=
  ⟨by decide,
    claim_C7 10 0 60 0 "c" "hello" (.ok "reply") ⟨[("c", [⟨"user", "x", 0, none⟩])], []⟩
      (by decide)⟩

/-! Rate limiter lemmas: single bucket runs. -/

theorem rlRun1_append (max_requests : ℕ) (window_seconds : ℚ) (l1 l2 : List ℚ) :
    ∀ b : List ℚ, rlRun1 max_requests window_seconds b (l1 ++ l2) =
      ((rlRun1 max_requests window_seconds
          (rlRun1 max_requests window_seconds b l1).1 l2).1,
        (rlRun1 max_requests window_seconds b l1).2 ++
          (rlRun1 max_requests window_seconds
            (rlRun1 max_requests window_seconds b l1).1 l2).2) := by
  induction l1 with
  | nil => intro b; simp [rlRun1]
  | cons t ts ih => intro b; simp [rlRun1, ih]

theorem rlStep_length_le (max_requests : ℕ) (window_seconds t : ℚ) (b : List ℚ)
    (hb : b.length ≤ max_requests) :
    (rlStep max_requests window_seconds t b).2.length ≤ max_requests := by
  unfold rlStep
  by_cases h : (pruneBucket window_seconds t b).length < max_requests
  · simp only [h, if_pos, List.length_append, List.length_singleton]
    omega
  · simp only [h, if_neg, ite_false]
    calc (pruneBucket window_seconds t b).length ≤ b.length :=
          List.length_filter_le _ _
      _ ≤ max_requests := hb

theorem rlRun1_length_le (max_requests : ℕ) (window_seconds : ℚ) (ts : List ℚ) :
    ∀ b : List ℚ, b.length ≤ max_requests →
      ((rlRun1 max_requests window_seconds b ts).1).length ≤ max_requests := by
  induction ts with
  | nil => intro b hb; simpa [rlRun1] using hb
  | cons t ts ih =>
    intro b hb
    simp only [rlRun1]
    exact ih _ (rlStep_length_le _ _ _ _ hb)

theorem rlRun1_trace_fst (max_requests : ℕ) (window_seconds : ℚ) (ts : List ℚ) :
    ∀ b : List ℚ, ((rlRun1 max_requests window_seconds b ts).2).map Prod.fst = ts := by
  induction ts with
  | nil => intro b; simp [rlRun1]
  | cons t ts ih => intro b; simp [rlRun1, ih]

theorem allowedTimes_append (t1 t2 : List (ℚ × Bool)) :
    allowedTimes (t1 ++ t2) = allowedTimes t1 ++ allowedTimes t2 := by
  simp [allowedTimes, List.filter_append]

/-- Pruning by a later deadline subsumes pruning by an earlier one. -/
theorem filter_window_filter_window (window_seconds s t : ℚ) (hst : s ≤ t) (l : List ℚ) :
    (l.filter (fun x => decide (s - x < window_seconds))).filter
        (fun x => decide (t - x < window_seconds)) =
      l.filter (fun x => decide (t - x < window_seconds)) := by
  rw [List.filter_filter]
  congr 1
  funext a
  by_cases h : t - a < window_seconds
  · have h2 : s - a < window_seconds := lt_of_le_of_lt (by linarith) h
    simp [h, h2]
  · simp [h]

theorem length_filter_le_of_imp {α : Type} (p q : α → Bool) :
    ∀ l : List α, (∀ a ∈ l, p a = true → q a = true) →
      (l.filter p).length ≤ (l.filter q).length := by
  intro l
  induction l with
  | nil => simp
  | cons a l ih =>
    intro h
    have hl := ih (fun x hx => h x (List.mem_cons_of_mem _ hx))
    cases hp : p a with
    | true =>
      have hq := h a (List.mem_cons_self _ _) hp
      simp [List.filter_cons, hp, hq]
      omega
    | false =>
      cases hq : q a with
      | true =>
        simp [List.filter_cons, hp, hq]
        omega
      | false =>
        simpa [List.filter_cons, hp, hq] using hl

theorem filter_eq_self_of_length {α : Type} (p : α → Bool) :
    ∀ l : List α, (l.filter p).length = l.length → l.filter p = l := by
  intro l
  induction l with
  | nil => simp
  | cons a l ih =>
    intro h
    cases hp : p a with
    | true =>
      rw [List.filter_cons, if_pos hp] at h
      simp only [List.length_cons] at h
      have h' : (l.filter p).length = l.length := by omega
      rw [List.filter_cons, if_pos hp, ih h']
    | false =>
      exfalso
      have hle := List.length_filter_le p l
      simp [List.filter_cons, hp] at h
      omega

/-- After a monotone run ending at time t, the stored bucket is exactly
the list of admitted call times still inside the window ending at t. -/
theorem rlRun1_bucket_eq (max_requests : ℕ) (window_seconds : ℚ)
    (hw : 0 < window_seconds) (ts : List ℚ) :
    ∀ t : ℚ, List.Sorted (· ≤ ·) (ts ++ [t]) →
      (rlRun1 max_requests window_seconds [] (ts ++ [t])).1 =
        (allowedTimes (rlRun1 max_requests window_seconds [] (ts ++ [t])).2).filter
          (fun x => decide (t - x < window_seconds)) := by
  induction ts using List.reverseRecOn with
  | nil =>
    intro t _
    by_cases hm : 0 < max_requests
    · simp [rlRun1, rlStep, pruneBucket, hm, allowedTimes, sub_self, hw]
    · simp [rlRun1, rlStep, pruneBucket, hm, allowedTimes]
  | append_singleton ts s ih =>
    intro t hs
    have hs1 : List.Sorted (· ≤ ·) (ts ++ [s]) :=
      List.Pairwise.sublist (List.sublist_append_left (ts ++ [s]) [t]) hs
    have hst : s ≤ t :=
      (List.pairwise_append.mp hs).2.2 s (by simp) t (by simp)
    have hpr : pruneBucket window_seconds t
        (rlRun1 max_requests window_seconds [] (ts ++ [s])).1 =
        (allowedTimes (rlRun1 max_requests window_seconds [] (ts ++ [s])).2).filter
          (fun x => decide (t - x < window_seconds)) := by
      unfold pruneBucket
      rw [ih s hs1]
      exact filter_window_filter_window window_seconds s t hst _
    rw [rlRun1_append]
    simp only [rlRun1]
    rw [allowedTimes_append, List.filter_append]
    by_cases hcnt : (pruneBucket window_seconds t
        (rlRun1 max_requests window_seconds [] (ts ++ [s])).1).length < max_requests
    · simp only [rlStep, hcnt, if_pos]
      rw [hpr]
      simp [allowedTimes, sub_self, hw]
    · simp only [rlStep, hcnt, ite_false]
      rw [hpr]
      simp [allowedTimes]

/-- In a sorted list, everything the dropWhile at T keeps lies beyond T. -/
theorem not_le_of_mem_dropWhile (T : ℚ) :
    ∀ ts : List ℚ, List.Sorted (· ≤ ·) ts →
      ∀ x ∈ ts.dropWhile (fun a => decide (a ≤ T)), ¬ x ≤ T := by
  intro ts
  induction ts with
  | nil => intro _ x hx; simp [List.dropWhile] at hx
  | cons a l ih =>
    intro hs x hx
    rw [List.dropWhile_cons] at hx
    by_cases ha : a ≤ T
    · rw [if_pos (by simpa using ha)] at hx
      exact ih (List.sorted_cons.mp hs).2 x hx
    · rw [if_neg (by simpa using ha)] at hx
      rcases List.mem_cons.mp hx with rfl | hxl
      · exact ha
      · intro hle
        exact ha (le_trans ((List.sorted_cons.mp hs).1 x hxl) hle)

/-- Counting admitted trace entries by a predicate on their times is the
same as counting in the admitted-times projection. -/
theorem length_filter_pair (q : ℚ → Bool) (tr : List (ℚ × Bool)) :
    (tr.filter (fun r => r.2 && q r.1)).length = ((allowedTimes tr).filter q).length := by
  unfold allowedTimes
  rw [List.filter_map, List.length_map, List.filter_filter]
  exact congrArg List.length (List.filter_congr (fun a _ => Bool.and_comm a.2 (q a.1)))

/-- Sliding-window bound on a single bucket: a monotone run admits at
most max_requests calls whose time lies in any window of length
window_seconds ending at T. -/
theorem rlRun1_window_count (max_requests : ℕ) (window_seconds : ℚ)
    (hw : 0 < window_seconds) (ts : List ℚ) (hs : List.Sorted (· ≤ ·) ts) (T : ℚ) :
    ((rlRun1 max_requests window_seconds [] ts).2.filter
      (fun r => r.2 && (decide (T - window_seconds < r.1) && decide (r.1 ≤ T)))).length
      ≤ max_requests := by
  have hsplit : ts.takeWhile (fun a => decide (a ≤ T)) ++
      ts.dropWhile (fun a => decide (a ≤ T)) = ts :=
    List.takeWhile_append_dropWhile _ _
  conv_lhs => rw [← hsplit]
  rw [rlRun1_append, List.filter_append, List.length_append]
  have hsuf : ((rlRun1 max_requests window_seconds
      (rlRun1 max_requests window_seconds []
        (ts.takeWhile (fun a => decide (a ≤ T)))).1
      (ts.dropWhile (fun a => decide (a ≤ T)))).2.filter
      (fun r => r.2 && (decide (T - window_seconds < r.1) && decide (r.1 ≤ T)))) = [] := by
    rw [List.filter_eq_nil_iff]
    intro r hr
    have hmem : r.1 ∈ ts.dropWhile (fun a => decide (a ≤ T)) := by
      rw [← rlRun1_trace_fst max_requests window_seconds
        (ts.dropWhile (fun a => decide (a ≤ T)))
        (rlRun1 max_requests window_seconds []
          (ts.takeWhile (fun a => decide (a ≤ T)))).1]
      exact List.mem_map_of_mem _ hr
    have hgt := not_le_of_mem_dropWhile T ts hs r.1 hmem
    simp [hgt]
  rw [hsuf]
  simp only [List.length_nil, Nat.add_zero]
  rcases List.eq_nil_or_concat' (ts.takeWhile (fun a => decide (a ≤ T))) with hnil | hcat
  · rw [hnil]
    simp [rlRun1]
  · obtain ⟨pre, tstar, hcat⟩ := hcat
    have htake : (ts.takeWhile (fun a => decide (a ≤ T))).Sublist ts := by
      conv_rhs => rw [← hsplit]
      exact List.sublist_append_left _ _
    have hsorted_take : List.Sorted (· ≤ ·) (ts.takeWhile (fun a => decide (a ≤ T))) :=
      List.Pairwise.sublist htake hs
    have hsorted_pre : List.Sorted (· ≤ ·) (pre ++ [tstar]) := by
      rw [← hcat]; exact hsorted_take
    have htstar_le : tstar ≤ T := by
      have hmem : tstar ∈ ts.takeWhile (fun a => decide (a ≤ T)) := by
        rw [hcat]; simp
      simpa using List.mem_takeWhile_imp hmem
    have hall_le : ∀ x ∈ ts.takeWhile (fun a => decide (a ≤ T)), x ≤ tstar := by
      intro x hx
      rw [hcat] at hx
      rcases List.mem_append.mp hx with hx1 | hx2
      · exact (List.pairwise_append.mp hsorted_pre).2.2 x hx1 tstar (by simp)
      · rw [List.mem_singleton.mp hx2]
    have h1 : ((rlRun1 max_requests window_seconds []
        (ts.takeWhile (fun a => decide (a ≤ T)))).2.filter
        (fun r => r.2 && (decide (T - window_seconds < r.1) && decide (r.1 ≤ T)))).length ≤
        ((rlRun1 max_requests window_seconds []
        (ts.takeWhile (fun a => decide (a ≤ T)))).2.filter
        (fun r => r.2 && decide (tstar - r.1 < window_seconds))).length := by
      apply length_filter_le_of_imp
      intro r hr hp
      have hrmem : r.1 ∈ ts.takeWhile (fun a => decide (a ≤ T)) := by
        rw [← rlRun1_trace_fst max_requests window_seconds
          (ts.takeWhile (fun a => decide (a ≤ T))) []]
        exact List.mem_map_of_mem _ hr
      have hle := hall_le _ hrmem
      simp only [Bool.and_eq_true, decide_eq_true_eq] at hp ⊢
      exact ⟨hp.1, by linarith [hp.2.1, hp.2.2]⟩
    have h2 : ((rlRun1 max_requests window_seconds []
        (ts.takeWhile (fun a => decide (a ≤ T)))).2.filter
        (fun r => r.2 && decide (tstar - r.1 < window_seconds))).length =
        ((allowedTimes (rlRun1 max_requests window_seconds []
          (ts.takeWhile (fun a => decide (a ≤ T)))).2).filter
          (fun x => decide (tstar - x < window_seconds))).length :=
      length_filter_pair (fun x => decide (tstar - x < window_seconds))
        (rlRun1 max_requests window_seconds []
          (ts.takeWhile (fun a => decide (a ≤ T)))).2
    have h3 : (allowedTimes (rlRun1 max_requests window_seconds []
        (ts.takeWhile (fun a => decide (a ≤ T)))).2).filter
          (fun x => decide (tstar - x < window_seconds)) =
        (rlRun1 max_requests window_seconds []
          (ts.takeWhile (fun a => decide (a ≤ T)))).1 := by
      conv_lhs => rw [hcat]
      conv_rhs => rw [hcat]
      exact (rlRun1_bucket_eq max_requests window_seconds hw pre tstar hsorted_pre).symm
    have h4 : ((rlRun1 max_requests window_seconds []
        (ts.takeWhile (fun a => decide (a ≤ T)))).1).length ≤ max_requests :=
      rlRun1_length_le _ _ _ [] (by simp)
    rw [h2, h3] at h1
    exact le_trans h1 h4

/-! Rate limiter lemmas: from the bucket map down to single buckets. -/

theorem bucketOf_nil (identifier : String) : bucketOf ([] : RLMap) identifier = [] := rfl

theorem bucketOf_mapSet_self (buckets : RLMap) (k : String) (b : List ℚ) :
    bucketOf (mapSet buckets k b) k = b := by
  simp [bucketOf, mapGet_mapSet_self]

theorem bucketOf_mapSet_other (buckets : RLMap) (k k' : String) (b : List ℚ)
    (h : k ≠ k') : bucketOf (mapSet buckets k b) k' = bucketOf buckets k' := by
  simp [bucketOf, mapGet_mapSet_other _ _ _ _ h]

/-- A mixed-identity run, projected to one identity, behaves exactly as
the single-bucket run over the call times of that identity. -/
theorem rlRunMap_proj (max_requests : ℕ) (window_seconds : ℚ) (id : String) :
    ∀ (calls : List (String × ℚ)) (buckets : RLMap),
      bucketOf (rlRunMap max_requests window_seconds buckets calls).1 id =
        (rlRun1 max_requests window_seconds (bucketOf buckets id)
          (callsFor id calls)).1 ∧
      ((rlRunMap max_requests window_seconds buckets calls).2.filter
          (fun r => decide (r.1.1 = id))).map (fun r => (r.1.2, r.2)) =
        (rlRun1 max_requests window_seconds (bucketOf buckets id)
          (callsFor id calls)).2 := by
  intro calls
  induction calls with
  | nil => intro buckets; simp [rlRunMap, rlRun1, callsFor]
  | cons c cs ih =>
    intro buckets
    obtain ⟨cid, t⟩ := c
    by_cases hc : cid = id
    · subst hc
      have hcf : callsFor cid ((cid, t) :: cs) = t :: callsFor cid cs := by
        simp [callsFor]
      rw [hcf]
      simp only [rlRunMap, rlRun1, is_allowed]
      have ih1 := (ih (mapSet buckets cid
        (rlStep max_requests window_seconds t (bucketOf buckets cid)).2)).1
      have ih2 := (ih (mapSet buckets cid
        (rlStep max_requests window_seconds t (bucketOf buckets cid)).2)).2
      rw [bucketOf_mapSet_self] at ih1 ih2
      refine ⟨ih1, ?_⟩
      rw [List.filter_cons, if_pos (by simp)]
      simp only [List.map_cons]
      exact congrArg _ ih2
    · have hcf : callsFor id ((cid, t) :: cs) = callsFor id cs := by
        simp [callsFor, hc]
      rw [hcf]
      simp only [rlRunMap, is_allowed]
      have ih1 := (ih (mapSet buckets cid
        (rlStep max_requests window_seconds t (bucketOf buckets cid)).2)).1
      have ih2 := (ih (mapSet buckets cid
        (rlStep max_requests window_seconds t (bucketOf buckets cid)).2)).2
      rw [bucketOf_mapSet_other _ _ _ _ hc] at ih1 ih2
      refine ⟨ih1, ?_⟩
      rw [List.filter_cons, if_neg (by simp [hc])]
      exact ih2

/-- Counting the accepted calls of one identity in a mixed trace equals
counting in the projected single-bucket trace. -/
theorem length_filter_trace (id : String) (window_seconds T : ℚ)
    (tr : List ((String × ℚ) × Bool)) :
    (tr.filter (fun r => decide (r.1.1 = id) &&
        (r.2 && (decide (T - window_seconds < r.1.2) && decide (r.1.2 ≤ T))))).length =
      (((tr.filter (fun r => decide (r.1.1 = id))).map (fun r => (r.1.2, r.2))).filter
        (fun p => p.2 && (decide (T - window_seconds < p.1) && decide (p.1 ≤ T)))).length := by
  rw [List.filter_map, List.length_map, List.filter_filter]
  exact congrArg List.length (List.filter_congr (fun a _ => Bool.and_comm _ _))

/-- Claim C2: under monotone call times and a positive window, (i) for
every identity and every time T at most max_requests calls of that
identity returning true have their time in the window (T - w, T], and
after every check (ii) every timestamp retained in the checked bucket
is younger than window_seconds relative to that check, and (iii) the
checked bucket holds at most max_requests timestamps. -/
theorem claim_C2 (max_requests : ℕ) (window_seconds : ℚ) (hw : 0 < window_seconds)
    (calls : List (String × ℚ))
    (hmono : List.Sorted (· ≤ ·) (calls.map Prod.snd)) :
    (∀ (identifier : String) (T : ℚ),
      (((rlRunMap max_requests window_seconds [] calls).2).filter
        (fun r => decide (r.1.1 = identifier) &&
          (r.2 && (decide (T - window_seconds < r.1.2) && decide (r.1.2 ≤ T))))).length
        ≤ max_requests) ∧
    (∀ (pre : List (String × ℚ)) (identifier : String) (t : ℚ) (suf : List (String × ℚ)),
      calls = pre ++ (identifier, t) :: suf →
        (∀ x ∈ bucketOf (rlRunMap max_requests window_seconds []
            (pre ++ [(identifier, t)])).1 identifier, t - x < window_seconds) ∧
        (bucketOf (rlRunMap max_requests window_seconds []
            (pre ++ [(identifier, t)])).1 identifier).length ≤ max_requests) := by
  constructor
  · intro identifier T
    rw [length_filter_trace identifier window_seconds T]
    rw [(rlRunMap_proj max_requests window_seconds identifier calls []).2]
    have hsorted : List.Sorted (· ≤ ·) (callsFor identifier calls) :=
      List.Pairwise.sublist (List.Sublist.map _ (List.filter_sublist _)) hmono
    exact rlRun1_window_count _ _ hw _ hsorted T
  · intro pre identifier t suf hcalls
    have hsub : (pre ++ [(identifier, t)]).Sublist calls := by
      rw [hcalls]
      exact List.Sublist.append_left
        (List.Sublist.cons₂ _ (List.nil_sublist suf)) pre
    have hcf : callsFor identifier (pre ++ [(identifier, t)]) =
        callsFor identifier pre ++ [t] := by
      simp [callsFor, List.filter_append]
    have hproj := (rlRunMap_proj max_requests window_seconds identifier
      (pre ++ [(identifier, t)]) []).1
    have hsorted2 : List.Sorted (· ≤ ·) (callsFor identifier pre ++ [t]) := by
      rw [← hcf]
      exact List.Pairwise.sublist
        (List.Sublist.trans (List.Sublist.map _ (List.filter_sublist _))
          (List.Sublist.map _ hsub)) hmono
    rw [bucketOf_nil] at hproj
    constructor
    · intro x hx
      rw [hproj, hcf] at hx
      rw [rlRun1_bucket_eq max_requests window_seconds hw
        (callsFor identifier pre) t hsorted2] at hx
      have := (List.mem_filter.mp hx).2
      simpa using this
    · rw [hproj]
      exact rlRun1_length_le _ _ _ _ (Nat.zero_le _)

/-- Concrete instance for claim C2: two calls of one identity a full
window apart are both admitted, and at most one of them lies in the
window ending at time 1. -/
theorem claim_C2_witness :
    (0 : ℚ) < 1 ∧
    List.Sorted (· ≤ ·) (([(("a" : String), (0 : ℚ)), ("a", 1)]).map Prod.snd) ∧
    (((rlRunMap 1 1 [] [(("a" : String), (0 : ℚ)), ("a", 1)]).2).filter
      (fun r => decide (r.1.1 = "a") &&
        (r.2 && (decide ((1 : ℚ) - 1 < r.1.2) && decide (r.1.2 ≤ (1 : ℚ)))))).length ≤ 1 :=
  ⟨by decide, by decide,
    (claim_C2 1 1 (by decide) [("a", 0), ("a", 1)] (by decide)).1 "a" 1⟩

/-- A denied check writes back the very bucket it read: from a bucket
already within the limit, a denial prunes nothing. -/
theorem is_allowed_denied_frame (max_requests : ℕ) (window_seconds t : ℚ)
    (S : RLMap) (identifier : String)
    (hblen : (bucketOf S identifier).length ≤ max_requests)
    (hdenied : (is_allowed max_requests window_seconds t S identifier).1 = false) :
    ∀ id2, bucketOf (is_allowed max_requests window_seconds t S identifier).2 id2 =
      bucketOf S id2 := by
  have hcond : ¬ (pruneBucket window_seconds t
      ((mapGet S identifier).getD [])).length < max_requests := by
    intro hlt
    simp [is_allowed, rlStep, hlt] at hdenied
  have hpruned : pruneBucket window_seconds t ((mapGet S identifier).getD []) =
      (mapGet S identifier).getD [] := by
    unfold pruneBucket at hcond ⊢
    apply filter_eq_self_of_length
    have hle : (List.filter (fun x => decide (t - x < window_seconds))
        ((mapGet S identifier).getD [])).length ≤
        ((mapGet S identifier).getD []).length := List.length_filter_le _ _
    unfold bucketOf at hblen
    omega
  intro id2
  have hstep : (is_allowed max_requests window_seconds t S identifier).2 =
      mapSet S identifier ((mapGet S identifier).getD []) := by
    simp only [is_allowed, rlStep]
    rw [if_neg hcond]
    exact congrArg _ hpruned
  rw [hstep]
  by_cases h : identifier = id2
  · subst h
    rw [bucketOf_mapSet_self]
    rfl
  · rw [bucketOf_mapSet_other _ _ _ _ h]

/-- Claim C3: a denied is_allowed call on a reachable limiter state
never mutates any stored bucket: the timestamps of every identity read the
same before and after the denied check, so no slot is consumed. -/
theorem claim_C3 (max_requests : ℕ) (window_seconds : ℚ) (calls : List (String × ℚ))
    (identifier : String) (t : ℚ)
    (hdenied : (is_allowed max_requests window_seconds t
      (rlRunMap max_requests window_seconds [] calls).1 identifier).1 = false) :
    ∀ id2 : String,
      bucketOf (is_allowed max_requests window_seconds t
        (rlRunMap max_requests window_seconds [] calls).1 identifier).2 id2 =
        bucketOf (rlRunMap max_requests window_seconds [] calls).1 id2 := by
  have hblen : (bucketOf (rlRunMap max_requests window_seconds [] calls).1
      identifier).length ≤ max_requests := by
    rw [(rlRunMap_proj max_requests window_seconds identifier calls []).1]
    exact rlRun1_length_le _ _ _ _ (Nat.zero_le _)
  exact is_allowed_denied_frame max_requests window_seconds t _ identifier hblen hdenied

/-- Concrete instance for claim C3: with max_requests 1 the second call
inside the window is denied and the stored bucket is unchanged. -/
theorem claim_C3_witness :
    (is_allowed 1 60 1 (rlRunMap 1 60 [] [(("a" : String), (0 : ℚ))]).1 "a").1 = false ∧
    bucketOf (is_allowed 1 60 1 (rlRunMap 1 60 [] [(("a" : String), (0 : ℚ))]).1 "a").2 "a" =
      bucketOf (rlRunMap 1 60 [] [(("a" : String), (0 : ℚ))]).1 "a" := by
  have hden : (is_allowed 1 60 1 (rlRunMap 1 60 [] [(("a" : String), (0 : ℚ))]).1 "a").1
      = false := by
    norm_num [is_allowed, rlStep, rlRunMap, pruneBucket, mapGet, mapSet]
  exact ⟨hden, claim_C3 1 60 [("a", 0)] "a" 1 hden "a"⟩

end AWSChatBot
